import Mathlib

/-!
Verification of the external-lease index (`lib/vdsm/storage/xlease.py`) and
the managed-volume database (`lib/vdsm/storage/managedvolumedb.py`).

The Python code is shallowly embedded: byte strings become `List Nat` (each
element a byte value), buffers (`mmap` objects) become functions `Nat → Nat`
from absolute byte offset to byte value, and fallible operations return
`Except` or pair the result with the unchanged state.  Constants are taken
verbatim from the source (`vdsm/storage/constants.py` has
`BLOCK_SIZE = 512`).
-/

namespace Xlease

/-- `BLOCK_SIZE` from `vdsm/storage/constants.py`. -/
def BLOCK_SIZE : Nat := 512

/-- `SLOT_SIZE = 2048 * BLOCK_SIZE`. -/
def SLOT_SIZE : Nat := 2048 * BLOCK_SIZE

/-- `LOCKSPACE_BASE = 0`. -/
def LOCKSPACE_BASE : Nat := 0

/-- `INDEX_BASE = SLOT_SIZE`. -/
def INDEX_BASE : Nat := SLOT_SIZE

/-- `PRIVATE_RESOURCE_BASE = 2 * SLOT_SIZE`. -/
def PRIVATE_RESOURCE_BASE : Nat := 2 * SLOT_SIZE

/-- `USER_RESOURCE_BASE = 3 * SLOT_SIZE`. -/
def USER_RESOURCE_BASE : Nat := 3 * SLOT_SIZE

/-- `METADATA_SIZE = BLOCK_SIZE`. -/
def METADATA_SIZE : Nat := BLOCK_SIZE

/-- `RECORD_BASE = METADATA_SIZE`. -/
def RECORD_BASE : Nat := METADATA_SIZE

/-- `MAX_RECORDS = 4000`. -/
def MAX_RECORDS : Nat := 4000

/-- `RECORD_SIZE = 64`. -/
def RECORD_SIZE : Nat := 64

/-- `INDEX_SIZE = METADATA_SIZE + (MAX_RECORDS * RECORD_SIZE)`. -/
def INDEX_SIZE : Nat := METADATA_SIZE + MAX_RECORDS * RECORD_SIZE

/-- `FLAG_NONE = b"-"` (byte 45). -/
def FLAG_NONE : Nat := 45

/-- `FLAG_UPDATING = b"u"` (byte 117). -/
def FLAG_UPDATING : Nat := 117

/-- `RECORD_TERM = b"\n"` (byte 10). -/
def RECORD_TERM : Nat := 10

/-- Behaviour of a `struct` `"Ns"` field on packing: the argument is
truncated, or padded with NUL bytes, to exactly `n` bytes. -/
def padTrunc (n : Nat) (bs : List Nat) : List Nat :=
  (bs ++ List.replicate n 0).take n

/-- Little-endian decimal digits of `n` (empty for `0`), with explicit fuel
so the recursion is structural.  Called with `fuel = n`. -/
def decDigitsRev (fuel n : Nat) : List Nat :=
  match fuel, n with
  | 0, _ => []
  | _ + 1, 0 => []
  | fuel + 1, n + 1 => ((n + 1) % 10) :: decDigitsRev fuel ((n + 1) / 10)

/-- ASCII bytes of `b"%011d" % n` for a non-negative `n`: the decimal digit
string of `n`, left-padded with `'0'` (byte 48) to at least 11 bytes. -/
def decPad11 (n : Nat) : List Nat :=
  let ds := ((decDigitsRev n n).reverse).map (fun d => d + 48)
  List.replicate (11 - ds.length) 48 ++ ds

/-- Decimal value of a big-endian digit-value list. -/
def decValue (l : List Nat) : Nat :=
  l.foldl (fun a b => 10 * a + (b - 48)) 0

/-- Model of Python `int(bytes)` on the fragment exercised by the index: a
non-empty, all-ASCII-digit field parses to its decimal value; anything else
is a parse error.  (Encoded offset fields are always exactly 11 ASCII
digits, so the extra forms `int()` accepts — signs, surrounding whitespace —
are never produced by the encoder.) -/
def parseDec (l : List Nat) : Option Nat :=
  if l = [] then none
  else if l.all (fun b => Nat.ble 48 b && Nat.ble b 57) then some (decValue l)
  else none

instance {ε α : Type} [DecidableEq ε] [DecidableEq α] : DecidableEq (Except ε α) := fun x y =>
  match x, y with
  | .error a, .error b =>
    if h : a = b then isTrue (congrArg Except.error h)
    else isFalse (fun hh => h (by injection hh))
  | .error _, .ok _ => isFalse (fun hh => Except.noConfusion hh)
  | .ok _, .error _ => isFalse (fun hh => Except.noConfusion hh)
  | .ok a, .ok b =>
    if h : a = b then isTrue (congrArg Except.ok h)
    else isFalse (fun hh => h (by injection hh))

/-- Errors raised by `Record.frombytes` (`InvalidRecord` reasons). -/
inductive RecErr where
  | cannotUnpack : RecErr
  | cannotDecodeResource : RecErr
  | cannotParseOffset : RecErr
deriving DecidableEq

/-- A lease record (`xlease.Record`).  The resource name is kept as its
ASCII byte string. -/
structure Record where
  resource : List Nat
  offset : Nat
  updating : Bool
deriving DecidableEq

/-- `bytes.rstrip(b"\0")`: drop trailing NUL bytes. -/
def rstripZero (l : List Nat) : List Nat :=
  (l.reverse.dropWhile (fun b => b == 0)).reverse

/-- `Record.bytes`: `RECORD_STRUCT.pack(resource, b"%011d" % offset, flag,
FLAG_NONE, RECORD_TERM)` with `RECORD_STRUCT = struct.Struct("48s x 11s x
3c")`.  The `"48s"`/`"11s"` fields truncate or NUL-pad their argument; the
two `x` pad bytes are NUL.  (`resource.encode("ascii")` succeeds exactly
when every byte is `< 128`; theorems assume that where it matters.) -/
def Record.bytes (r : Record) : List Nat :=
  padTrunc 48 r.resource ++ [0] ++ padTrunc 11 (decPad11 r.offset) ++ [0]
    ++ [if r.updating then FLAG_UPDATING else FLAG_NONE, FLAG_NONE, RECORD_TERM]

/-- `Record.frombytes`: unpack with `RECORD_STRUCT` (fails unless the input
is exactly 64 bytes), strip trailing NULs from the resource field, require
it to decode as ASCII, read the updating flag (byte 61, `'u'` means
updating) and parse the 11-byte offset field as a decimal integer. -/
def Record.frombytes (data : List Nat) : Except RecErr Record :=
  if data.length ≠ 64 then .error .cannotUnpack
  else
    let res := rstripZero (data.take 48)
    if res.any (fun b => Nat.ble 128 b) then .error .cannotDecodeResource
    else
      let updating := (data.drop 61).headD 0 == FLAG_UPDATING
      match parseDec ((data.drop 49).take 11) with
      | none => .error .cannotParseOffset
      | some off => .ok ⟨res, off, updating⟩

/-! ### Buffer model

An `mmap` buffer of `INDEX_SIZE` bytes is modelled as a function from byte
offset to byte value; offsets `≥ INDEX_SIZE` are never read by the
operations below. -/

/-- Overwrite `bs.length` bytes of `buf` starting at `off`
(`buf.seek(off); buf.write(bs)`). -/
def writeBytes (buf : Nat → Nat) (off : Nat) (bs : List Nat) : Nat → Nat :=
  fun a => if off ≤ a ∧ a < off + bs.length then bs.getD (a - off) 0 else buf a

/-- Read `n` bytes of `buf` starting at `off`
(`buf.seek(off); buf.read(n)`). -/
def readBytes (buf : Nat → Nat) (off n : Nat) : List Nat :=
  (List.range n).map (fun k => buf (off + k))

/-- Does the byte pattern `pat` occur in `buf` starting at offset `o`? -/
def matchesAt (buf : Nat → Nat) (pat : List Nat) (o : Nat) : Bool :=
  (List.range pat.length).all (fun k => buf (o + k) == pat.getD k 0)

/-- Scan `fuel` consecutive start offsets from `o` for the pattern,
returning the first offset that matches (`mmap.find` over that range). -/
def findFrom (buf : Nat → Nat) (pat : List Nat) (o fuel : Nat) : Option Nat :=
  match fuel with
  | 0 => none
  | fuel + 1 => if matchesAt buf pat o then some o else findFrom buf pat (o + 1) fuel

/-- `LOOKUP_STRUCT.pack(lease_id.encode("ascii"))` with `LOOKUP_STRUCT =
struct.Struct("48s x")`: the id truncated/NUL-padded to 48 bytes followed by
one NUL pad byte. -/
def lookupPat (leaseId : List Nat) : List Nat :=
  padTrunc 48 leaseId ++ [0]

/-- `VolumeIndex._record_offset`: `RECORD_BASE + recnum * RECORD_SIZE`. -/
def recordOffset (recnum : Nat) : Nat :=
  RECORD_BASE + recnum * RECORD_SIZE

/-- `VolumeIndex._record_number`: `(offset - RECORD_BASE) // RECORD_SIZE`. -/
def recordNumber (offset : Nat) : Nat :=
  (offset - RECORD_BASE) / RECORD_SIZE

/-- `VolumeIndex.find_record`: search the buffer from `RECORD_BASE` for the
packed lookup pattern (`self._buf.find(prefix, RECORD_BASE)`) and convert
the byte offset of the first hit to a record number.  `mmap.find` scans
every start offset up to `INDEX_SIZE - len(prefix)`; the source performs no
alignment check on the hit (its `TODO: continue search if offset is not
aligned to record size`).  A missing hit (`find` returning `-1`, passed
through as `-1`) is `none`; a hit at byte offset `o` yields
`_record_number(o)`. -/
def findRecord (buf : Nat → Nat) (leaseId : List Nat) : Option Nat :=
  (findFrom buf (lookupPat leaseId) RECORD_BASE
    (INDEX_SIZE - (lookupPat leaseId).length + 1 - RECORD_BASE)).map recordNumber

/-- `VolumeIndex.read_record`: read `RECORD_SIZE` bytes at the record's
offset and decode them. -/
def readRecord (buf : Nat → Nat) (recnum : Nat) : Except RecErr Record :=
  Record.frombytes (readBytes buf (recordOffset recnum) RECORD_SIZE)

/-- `VolumeIndex.copy_block`: start offset of the block containing record
`recnum` (`offset - (offset % BLOCK_SIZE)`). -/
def blockStart (recnum : Nat) : Nat :=
  recordOffset recnum - recordOffset recnum % BLOCK_SIZE

/-- `lease_offset(recnum) = USER_RESOURCE_BASE + recnum * SLOT_SIZE`. -/
def leaseOffset (recnum : Nat) : Nat :=
  USER_RESOURCE_BASE + recnum * SLOT_SIZE

/-! ### Leases volume

`LeasesVolume` holds the in-memory index buffer (`VolumeIndex._buf`) plus
the on-storage bytes of the index slot, addressed relative to `INDEX_BASE`
so the two use the same offsets.  The lockspace and path are carried for
`LeaseInfo`. -/

/-- State of a `LeasesVolume` together with the index region of the
underlying file. -/
structure LeasesVolume where
  lockspace : List Nat
  path : List Nat
  index : Nat → Nat
  storage : Nat → Nat

/-- `LeaseInfo` namedtuple. -/
structure LeaseInfo where
  lockspace : List Nat
  resource : List Nat
  path : List Nat
  offset : Nat
deriving DecidableEq

/-- Errors raised by `LeasesVolume` operations. -/
inductive XErr where
  | noSuchLease (leaseId : List Nat) : XErr
  | leaseExists (leaseId : List Nat) : XErr
  | leaseUpdating (leaseId : List Nat) : XErr
  | noSpace (leaseId : List Nat) : XErr
  | invalidRecord (e : RecErr) : XErr
deriving DecidableEq

/-- `LeasesVolume._write_record`: copy the block containing the record from
the in-memory buffer, replace the record in the copy, write that single
block back to storage (`RecordBlock.dump`), then update the in-memory index
(`VolumeIndex.write_record`).  The dumped block is exactly the updated
in-memory index restricted to the block's range. -/
def writeRec (v : LeasesVolume) (recnum : Nat) (r : Record) : LeasesVolume :=
  { v with
    index := writeBytes v.index (recordOffset recnum) r.bytes
    storage := fun a =>
      if blockStart recnum ≤ a ∧ a < blockStart recnum + BLOCK_SIZE then
        writeBytes v.index (recordOffset recnum) r.bytes a
      else v.storage a }

/-- `LeasesVolume.lookup`.  The method performs no writes; the state
component of the result is always the input state. -/
def lookup (v : LeasesVolume) (leaseId : List Nat) :
    LeasesVolume × Except XErr LeaseInfo :=
  match findRecord v.index leaseId with
  | none => (v, .error (.noSuchLease leaseId))
  | some recnum =>
    match readRecord v.index recnum with
    | .error e => (v, .error (.invalidRecord e))
    | .ok record =>
      if record.updating then (v, .error (.leaseUpdating leaseId))
      else (v, .ok ⟨v.lockspace, leaseId, v.path, leaseOffset recnum⟩)

/-- `LeasesVolume.add`.  The sanlock call between the two record writes
(`sanlock.write_resource(lockspace, lease_id, [(path, offset)])`) touches
the user resource slot, not the index region modelled here. -/
def add (v : LeasesVolume) (leaseId : List Nat) :
    LeasesVolume × Except XErr LeaseInfo :=
  match findRecord v.index leaseId with
  | some recnum =>
    match readRecord v.index recnum with
    | .error e => (v, .error (.invalidRecord e))
    | .ok record =>
      if record.updating then (v, .error (.leaseUpdating leaseId))
      else (v, .error (.leaseExists leaseId))
  | none =>
    match findRecord v.index [] with
    | none => (v, .error (.noSpace leaseId))
    | some recnum =>
      let off := leaseOffset recnum
      let v1 := writeRec v recnum ⟨leaseId, off, true⟩
      let v2 := writeRec v1 recnum ⟨leaseId, off, false⟩
      (v2, .ok ⟨v.lockspace, leaseId, v.path, off⟩)

/-- `LeasesVolume.remove`.  Note: unlike `lookup` and `add`, the method
never reads the found record, so an `updating` record is removed like any
other.  The sanlock call between the two writes
(`sanlock.write_resource("", "", [(path, offset)])`) clears the user
resource slot, outside the index region modelled here. -/
def remove (v : LeasesVolume) (leaseId : List Nat) :
    LeasesVolume × Except XErr Unit :=
  match findRecord v.index leaseId with
  | none => (v, .error (.noSuchLease leaseId))
  | some recnum =>
    let off := leaseOffset recnum
    let v1 := writeRec v recnum ⟨leaseId, off, true⟩
    let v2 := writeRec v1 recnum ⟨[], off, false⟩
    (v2, .ok ())

/-- One step of `format_index`: overwrite record `recnum` with a fresh free
record whose offset field is `lease_offset(recnum)`. -/
def formatStep (buf : Nat → Nat) (recnum : Nat) : Nat → Nat :=
  writeBytes buf (recordOffset recnum) (Record.bytes ⟨[], leaseOffset recnum, false⟩)

/-- `format_index(lockspace, file)` effect on the index region: load the
index buffer from storage, overwrite every record `0 ≤ recnum <
MAX_RECORDS` with a free record, then dump the whole buffer back to
storage.  The result is the content of both the dumped storage region and
the buffer. -/
def formatIndex (stored : Nat → Nat) : Nat → Nat :=
  (List.range MAX_RECORDS).foldl formatStep stored

/-! ### Concrete buffers and volumes used by witnesses -/

/-- An index region that is all zero bytes. -/
def zeroBuf : Nat → Nat := fun _ => 0

/-- Index buffer whose record 0 holds resource `"A"` mid-update. -/
def updIdx : Nat → Nat :=
  writeBytes zeroBuf (recordOffset 0) (Record.bytes ⟨[65], leaseOffset 0, true⟩)

/-- Index buffer whose record 0 holds resource `"A"`, not updating. -/
def okIdx : Nat → Nat :=
  writeBytes zeroBuf (recordOffset 0) (Record.bytes ⟨[65], leaseOffset 0, false⟩)

/-- Index region in which every record slot holds resource `"B"`
(byte pattern per record: `'B'`, 47 NULs, NUL pad, 11 `'0'` digits, NUL
pad, `'-'`, `'-'`, newline), so there is no free record and no record for
`"A"`. -/
def fullBuf (a : Nat) : Nat :=
  if a < RECORD_BASE then 0
  else if (a - RECORD_BASE) % RECORD_SIZE = 0 then 66
  else if (a - RECORD_BASE) % RECORD_SIZE ≤ 48 then 0
  else if (a - RECORD_BASE) % RECORD_SIZE ≤ 59 then 48
  else if (a - RECORD_BASE) % RECORD_SIZE = 60 then 0
  else if (a - RECORD_BASE) % RECORD_SIZE ≤ 62 then 45
  else 10

/-- Index region holding the byte `1` at offset 512 and the single-byte
resource `"A"` (byte 65) followed by NULs starting at offset 513: the
lookup pattern for `"A"` occurs only at the mis-aligned offset 513. -/
def misBuf : Nat → Nat :=
  fun a => if a = 512 then 1 else if a = 513 then 65 else 0

/-- Volume (lockspace `"LS"`, path `"p"`) whose record 0 is `"A"`,
updating; index and storage in sync. -/
def updVol : LeasesVolume := ⟨[76, 83], [112], updIdx, updIdx⟩

/-- Volume whose record 0 is `"A"`, not updating; index and storage in
sync. -/
def okVol : LeasesVolume := ⟨[76, 83], [112], okIdx, okIdx⟩

/-- Volume whose index is `fullBuf`. -/
def fullVol : LeasesVolume := ⟨[76, 83], [112], fullBuf, fullBuf⟩

/-- Volume whose index region is all zero bytes. -/
def zeroVol : LeasesVolume := ⟨[76, 83], [112], zeroBuf, zeroBuf⟩

end Xlease

namespace Mvdb

/-!
Model of `managedvolumedb._DB`.  The `volumes` and `multipaths`
sub-databases are finite maps from key bytes to stored values; a stored
volume value is the JSON object written by `add_volume`/`update_volume`,
modelled structurally (`json.loads(json.dumps(d)) == d` for these
objects).  The `connection_info` payload is opaque and kept as its
serialized bytes.  Each operation runs inside one transaction, so it is one
state transformation. -/

/-- JSON object stored under a volume id: `connection_info` always present,
`path`/`attachment`/`multipath_id` added by `update_volume`. -/
structure VolInfo where
  connection_info : List Nat
  path : Option (List Nat) := none
  attachment : Option (List Nat) := none
  multipath_id : Option (List Nat) := none
deriving DecidableEq

/-- Errors raised by the database operations used here. -/
inductive DBErr where
  | notFound (volId : List Nat) : DBErr
  | alreadyExists (volId : List Nat) (info : VolInfo) : DBErr
deriving DecidableEq

/-- The `volumes` and `multipaths` sub-databases. -/
structure DBState where
  volumes : List Nat → Option VolInfo
  multipaths : List Nat → Option (List Nat)

/-- `_DB.get_volume`: return the stored info or raise `NotFound`. -/
def getVolume (st : DBState) (volId : List Nat) : Except DBErr VolInfo :=
  match st.volumes volId with
  | none => .error (.notFound volId)
  | some info => .ok info

/-- `_DB.add_volume`: inside one write transaction, fail with
`VolumeAlreadyExists` when the key is present, else store
`{"connection_info": connection_info}`. -/
def addVolume (st : DBState) (volId : List Nat) (connInfo : List Nat) :
    DBState × Option DBErr :=
  match st.volumes volId with
  | some info => (st, some (.alreadyExists volId info))
  | none =>
    ({ st with volumes := fun k =>
        if k = volId then some ⟨connInfo, none, none, none⟩ else st.volumes k },
      none)

/-- `_DB.remove_volume`: inside one write transaction, look up the record
(raising `NotFound` when absent); when it has a truthy `multipath_id`,
delete that key — the source passes `db=volumes`, so the delete targets the
`volumes` sub-database — and finally delete the volume id from `volumes`. -/
def removeVolume (st : DBState) (volId : List Nat) : DBState × Option DBErr :=
  match st.volumes volId with
  | none => (st, some (.notFound volId))
  | some info =>
    let st1 :=
      match info.multipath_id with
      | some m =>
        if m ≠ [] then
          { st with volumes := fun k => if k = m then none else st.volumes k }
        else st
      | none => st
    ({ st1 with volumes := fun k => if k = volId then none else st1.volumes k },
      none)

/-- Database with one volume `"v1"` (bytes `[118, 49]`) whose record
carries `multipath_id = "mp1"` (bytes `[109, 112, 49]`), and the matching
reverse-index entry in `multipaths`. -/
def mpState : DBState :=
  ⟨fun k => if k = [118, 49] then some ⟨[99], none, none, some [109, 112, 49]⟩ else none,
   fun k => if k = [109, 112, 49] then some [118, 49] else none⟩

/-- Empty database. -/
def emptyState : DBState := ⟨fun _ => none, fun _ => none⟩

/-- Database with one volume `"v1"` storing connection info `[99]`. -/
def oneState : DBState :=
  ⟨fun k => if k = [118, 49] then some ⟨[99], none, none, none⟩ else none,
   fun _ => none⟩

end Mvdb

namespace Xlease

/-! ### Decimal field lemmas -/

/-- Little-endian value of a digit list. -/
def valLE : List Nat → Nat
  | [] => 0
  | d :: ds => d + 10 * valLE ds

theorem decDigitsRev_digit_lt {fuel n : Nat} : ∀ d ∈ decDigitsRev fuel n, d < 10 := by
  induction fuel generalizing n with
  | zero => simp [decDigitsRev]
  | succ fuel ih =>
    cases n with
    | zero => simp [decDigitsRev]
    | succ m =>
      intro d hd
      simp only [decDigitsRev, List.mem_cons] at hd
      rcases hd with h | h
      · subst h; exact Nat.mod_lt _ (by omega)
      · exact ih d h


theorem decDigitsRev_val {fuel n : Nat} (h : n ≤ fuel) :
    valLE (decDigitsRev fuel n) = n := by
  induction fuel generalizing n with
  | zero => interval_cases n; simp [decDigitsRev, valLE]
  | succ fuel ih =>
    cases n with
    | zero => simp [decDigitsRev, valLE]
    | succ m =>
      have hdiv : (m + 1) / 10 ≤ fuel := by omega
      simp only [decDigitsRev, valLE, ih hdiv]
      omega

theorem decDigitsRev_length {fuel n k : Nat} (h : n < 10 ^ k) :
    (decDigitsRev fuel n).length ≤ k := by
  induction fuel generalizing n k with
  | zero => simp [decDigitsRev]
  | succ fuel ih =>
    cases n with
    | zero => simp [decDigitsRev]
    | succ m =>
      cases k with
      | zero => simp at h
      | succ k =>
        have hdiv : (m + 1) / 10 < 10 ^ k := by
          rw [Nat.div_lt_iff_lt_mul (by omega)]
          calc m + 1 < 10 ^ (k + 1) := h
            _ = 10 ^ k * 10 := by ring
        simpa [decDigitsRev] using ih hdiv

theorem foldl_digit_shift (l : List Nat) (a : Nat) :
    l.foldl (fun x b => 10 * x + (b - 48)) a =
      a * 10 ^ l.length + l.foldl (fun x b => 10 * x + (b - 48)) 0 := by
  induction l generalizing a with
  | nil => simp
  | cons b t ih =>
    simp only [List.foldl_cons, List.length_cons]
    rw [ih (10 * a + (b - 48)), ih (10 * 0 + (b - 48))]
    ring

theorem foldl_digit_reverse (ds : List Nat) :
    ((ds.reverse).map (fun d => d + 48)).foldl (fun x b => 10 * x + (b - 48)) 0 =
      valLE ds := by
  induction ds with
  | nil => simp [valLE]
  | cons d t ih =>
    simp only [List.reverse_cons, List.map_append, List.map_cons, List.map_nil,
      List.foldl_append, List.foldl_cons, List.foldl_nil, valLE]
    rw [ih]
    omega

theorem decValue_replicate_append (k : Nat) (l : List Nat) :
    decValue (List.replicate k 48 ++ l) = decValue l := by
  induction k with
  | zero => simp
  | succ k ih => simp [List.replicate_succ, decValue] at ih ⊢; exact ih

/-- Length of the `b"%011d"` field for a value below `10 ^ 11`. -/
theorem decPad11_length {n : Nat} (h : n < 10 ^ 11) : (decPad11 n).length = 11 := by
  have hlen : ((decDigitsRev n n).reverse.map (fun d => d + 48)).length ≤ 11 := by
    simpa using @decDigitsRev_length n n 11 h
  simp only [decPad11, List.length_append, List.length_replicate]
  omega

theorem parseDec_decPad11 {n : Nat} (h : n < 10 ^ 11) :
    parseDec (padTrunc 11 (decPad11 n)) = some n := by
  have hlen : (decPad11 n).length = 11 := decPad11_length h
  have hfull : padTrunc 11 (decPad11 n) = decPad11 n := by
    rw [padTrunc, ← hlen, List.take_left]
  rw [hfull]
  have hne : decPad11 n ≠ [] := by
    intro hh
    rw [hh] at hlen
    simp at hlen
  have hdigits : (decPad11 n).all (fun b => Nat.ble 48 b && Nat.ble b 57) = true := by
    rw [List.all_eq_true]
    intro b hb
    simp only [decPad11, List.mem_append, List.mem_replicate, List.mem_map] at hb
    rcases hb with ⟨_, rfl⟩ | ⟨d, hd, rfl⟩
    · rfl
    · have := decDigitsRev_digit_lt d (List.mem_reverse.mp hd)
      simp only [Bool.and_eq_true, Nat.ble_eq]
      omega
  rw [parseDec, if_neg hne, if_pos hdigits]
  simp only [decPad11, Option.some.injEq]
  rw [decValue_replicate_append]
  show ((decDigitsRev n n).reverse.map (fun d => d + 48)).foldl
      (fun x b => 10 * x + (b - 48)) 0 = n
  rw [foldl_digit_reverse]
  exact decDigitsRev_val (Nat.le_refl n)

/-! ### Codec lemmas -/

theorem padTrunc_length (n : Nat) (bs : List Nat) : (padTrunc n bs).length = n := by
  simp [padTrunc]

theorem padTrunc_eq_append {n : Nat} {bs : List Nat} (h : bs.length ≤ n) :
    padTrunc n bs = bs ++ List.replicate (n - bs.length) 0 := by
  rw [padTrunc, List.take_append_eq_append_take, List.take_of_length_le h,
    List.take_replicate]
  have hmin : min (n - bs.length) n = n - bs.length := by omega
  rw [hmin]

theorem dropWhile_replicate_append (k : Nat) (l : List Nat) :
    (List.replicate k 0 ++ l).dropWhile (fun b => b == 0) =
      l.dropWhile (fun b => b == 0) := by
  induction k with
  | zero => simp
  | succ k ih => simp [List.replicate_succ, ih]

theorem rstripZero_padTrunc {res : List Nat} (h48 : res.length ≤ 48)
    (hlast : res.getLast? ≠ some 0) : rstripZero (padTrunc 48 res) = res := by
  rw [padTrunc_eq_append h48, rstripZero, List.reverse_append, List.reverse_replicate,
    dropWhile_replicate_append]
  rcases hrev : res.reverse with _ | ⟨h, t⟩
  · have : res = [] := by simpa using congrArg List.reverse hrev
    simp [this]
  · have hh : res.getLast? = some h := by
      rw [← List.head?_reverse, hrev]
      rfl
    have hne : (h == 0) = false := by
      by_cases h0 : h = 0
      · exact absurd (h0 ▸ hh) hlast
      · simpa using h0
    rw [List.dropWhile_cons, hne]
    simp only [Bool.false_eq_true, if_false]
    rw [← hrev, List.reverse_reverse]

/-- Splitting `Record.bytes` into its five fields. -/
theorem Record.bytes_eq (r : Record) :
    r.bytes = (padTrunc 48 r.resource ++ [0]) ++ (padTrunc 11 (decPad11 r.offset) ++ [0]
      ++ [if r.updating then FLAG_UPDATING else FLAG_NONE, FLAG_NONE, RECORD_TERM]) := by
  simp [Record.bytes]

theorem Record.bytes_length (r : Record) : r.bytes.length = 64 := by
  have h1 := padTrunc_length 48 r.resource
  have h2 := padTrunc_length 11 (decPad11 r.offset)
  simp [Record.bytes, h1, h2]

theorem Record.bytes_take48 (r : Record) : r.bytes.take 48 = padTrunc 48 r.resource := by
  rw [Record.bytes_eq, List.take_append_eq_append_take, List.take_append_eq_append_take]
  have h48 : (padTrunc 48 r.resource).length = 48 := padTrunc_length _ _
  rw [List.take_of_length_le (le_of_eq h48)]
  simp [h48]

/-- Round trip of the record codec on the valid domain: an ASCII resource of
at most 48 bytes that does not end in a NUL byte, and an offset of at most
11 decimal digits, decode back to themselves. -/
theorem frombytes_bytes (r : Record) (hlen : r.resource.length ≤ 48)
    (hascii : ∀ b ∈ r.resource, b < 128) (hlast : r.resource.getLast? ≠ some 0)
    (hoff : r.offset < 10 ^ 11) :
    Record.frombytes r.bytes = .ok r := by
  have hA : (padTrunc 48 r.resource ++ [0]).length = 49 := by
    simp [padTrunc_length]
  have htake : r.bytes.take 48 = padTrunc 48 r.resource := Record.bytes_take48 r
  have hdrop49 : r.bytes.drop 49 = padTrunc 11 (decPad11 r.offset) ++ [0]
      ++ [if r.updating then FLAG_UPDATING else FLAG_NONE, FLAG_NONE, RECORD_TERM] := by
    rw [Record.bytes_eq, List.drop_left' hA]
  have hoff11 : (padTrunc 11 (decPad11 r.offset)).length = 11 := padTrunc_length _ _
  have htake11 : (r.bytes.drop 49).take 11 = padTrunc 11 (decPad11 r.offset) := by
    rw [hdrop49, List.append_assoc, List.take_left' hoff11]
  have hdrop61 : r.bytes.drop 61 =
      [if r.updating then FLAG_UPDATING else FLAG_NONE, FLAG_NONE, RECORD_TERM] := by
    have h61 : ((padTrunc 48 r.resource ++ [0]) ++ (padTrunc 11 (decPad11 r.offset)
        ++ [0])).length = 61 := by
      simp [padTrunc_length]
    rw [Record.bytes_eq]
    rw [show (padTrunc 48 r.resource ++ [0]) ++ (padTrunc 11 (decPad11 r.offset) ++ [0]
        ++ [if r.updating then FLAG_UPDATING else FLAG_NONE, FLAG_NONE, RECORD_TERM]) =
        ((padTrunc 48 r.resource ++ [0]) ++ (padTrunc 11 (decPad11 r.offset) ++ [0]))
        ++ [if r.updating then FLAG_UPDATING else FLAG_NONE, FLAG_NONE, RECORD_TERM] by
      simp]
    rw [List.drop_left' h61]
  have hstrip : rstripZero (r.bytes.take 48) = r.resource := by
    rw [htake, rstripZero_padTrunc hlen hlast]
  have hnoany : (rstripZero (r.bytes.take 48)).any (fun b => Nat.ble 128 b) = false := by
    rw [hstrip]
    rw [List.any_eq_false]
    intro b hb
    have := hascii b hb
    simpa using by omega
  rw [Record.frombytes, if_neg (by simp [Record.bytes_length])]
  simp only [hnoany, Bool.false_eq_true, if_false]
  rw [htake11, parseDec_decPad11 hoff, hdrop61]
  have hflag : (([if r.updating then FLAG_UPDATING else FLAG_NONE, FLAG_NONE,
      RECORD_TERM].headD 0 == FLAG_UPDATING)) = r.updating := by
    cases r.updating <;> rfl
  rw [hstrip, hflag]

/-! ### Buffer lemmas -/

theorem range_map_getD (l : List Nat) :
    (List.range l.length).map (fun k => l.getD k 0) = l := by
  apply List.ext_getElem
  · simp
  · intro i h1 h2
    simp [List.getD_eq_getElem?_getD, List.getElem?_eq_getElem h2]

theorem writeBytes_apply_inside {buf : Nat → Nat} {off : Nat} {bs : List Nat} {a : Nat}
    (h : off ≤ a ∧ a < off + bs.length) :
    writeBytes buf off bs a = bs.getD (a - off) 0 := by
  simp [writeBytes, h]

theorem writeBytes_apply_outside {buf : Nat → Nat} {off : Nat} {bs : List Nat} {a : Nat}
    (h : a < off ∨ off + bs.length ≤ a) :
    writeBytes buf off bs a = buf a := by
  have hn : ¬(off ≤ a ∧ a < off + bs.length) := by omega
  simp [writeBytes, hn]

theorem readBytes_congr {buf1 buf2 : Nat → Nat} {off n : Nat}
    (h : ∀ a, off ≤ a → a < off + n → buf1 a = buf2 a) :
    readBytes buf1 off n = readBytes buf2 off n := by
  unfold readBytes
  apply List.map_congr_left
  intro k hk
  exact h (off + k) (by omega) (by simp at hk; omega)

theorem readBytes_writeBytes {buf : Nat → Nat} {off : Nat} {bs : List Nat} :
    readBytes (writeBytes buf off bs) off bs.length = bs := by
  unfold readBytes
  calc (List.range bs.length).map (fun k => writeBytes buf off bs (off + k))
      = (List.range bs.length).map (fun k => bs.getD k 0) := by
        apply List.map_congr_left
        intro k hk
        simp only [List.mem_range] at hk
        rw [writeBytes_apply_inside (by omega)]
        congr 1
        omega
    _ = bs := range_map_getD bs

/-- A 64-byte record region lies inside the `BLOCK_SIZE` block that
`copy_block` selects for it. -/
theorem record_region_subset_block (recnum : Nat) :
    blockStart recnum ≤ recordOffset recnum ∧
      recordOffset recnum + RECORD_SIZE ≤ blockStart recnum + BLOCK_SIZE := by
  simp only [blockStart, recordOffset, RECORD_BASE, METADATA_SIZE, BLOCK_SIZE, RECORD_SIZE]
  omega

/-! ### Search lemmas -/

theorem findFrom_eq_none {buf : Nat → Nat} {pat : List Nat} (fuel : Nat) :
    ∀ o, (∀ k, k < fuel → matchesAt buf pat (o + k) = false) →
      findFrom buf pat o fuel = none := by
  induction fuel with
  | zero => intro o _; rfl
  | succ fuel ih =>
    intro o h
    rw [findFrom]
    have h0 : matchesAt buf pat o = false := by simpa using h 0 (by omega)
    rw [h0]
    simp only [Bool.false_eq_true, if_false]
    exact ih (o + 1)
      (fun k hk => by simpa [Nat.add_assoc, Nat.add_comm 1 k] using h (k + 1) (by omega))

theorem findFrom_some_bound {buf : Nat → Nat} {pat : List Nat} {fuel o x : Nat}
    (h : findFrom buf pat o fuel = some x) : o ≤ x ∧ x < o + fuel := by
  induction fuel generalizing o with
  | zero => simp [findFrom] at h
  | succ fuel ih =>
    rw [findFrom] at h
    by_cases hm : matchesAt buf pat o = true
    · rw [if_pos hm] at h
      injection h with h
      omega
    · rw [if_neg hm] at h
      have := ih h
      omega

/-- Any record number that `find_record` returns is below `MAX_RECORDS`. -/
theorem findRecord_lt {buf : Nat → Nat} {leaseId : List Nat} {n : Nat}
    (h : findRecord buf leaseId = some n) : n < MAX_RECORDS := by
  unfold findRecord at h
  rcases Option.map_eq_some'.mp h with ⟨o, hf, hn⟩
  have hlen : (lookupPat leaseId).length = 49 := by simp [lookupPat, padTrunc_length]
  have hb := findFrom_some_bound hf
  rw [hlen] at hb
  subst hn
  simp only [recordNumber, RECORD_BASE, METADATA_SIZE, BLOCK_SIZE, RECORD_SIZE,
    INDEX_SIZE, MAX_RECORDS] at *
  omega

theorem matchesAt_eq_false {buf : Nat → Nat} {pat : List Nat} {o j : Nat}
    (hj : j < pat.length) (h : buf (o + j) ≠ pat.getD j 0) :
    matchesAt buf pat o = false := by
  rcases hm : matchesAt buf pat o with _ | _
  · rfl
  · exfalso
    apply h
    have := List.all_eq_true.mp hm j (List.mem_range.mpr hj)
    simpa using this

theorem getD_replicate_zero (n j : Nat) : (List.replicate n 0).getD j 0 = 0 := by
  induction n generalizing j with
  | zero => simp
  | succ n ih =>
    cases j with
    | zero => simp [List.replicate_succ]
    | succ j => simp [List.replicate_succ, ih j]

theorem lookupPat_length (leaseId : List Nat) : (lookupPat leaseId).length = 49 := by
  simp [lookupPat, padTrunc_length]

theorem lookupPat_nil : lookupPat [] = List.replicate 49 0 := by decide

/-! ### The saturated buffer

`fullBuf` holds a `"B"` record in every slot, so neither the pattern for
`"A"` nor the all-NUL pattern for the blank lease occurs anywhere in it. -/

theorem fullBuf_ne_65 (a : Nat) : fullBuf a ≠ 65 := by
  unfold fullBuf
  split_ifs <;> omega

theorem fullBuf_spec (a : Nat) (h : RECORD_BASE ≤ a) :
    ((a - RECORD_BASE) % RECORD_SIZE = 0 → fullBuf a = 66) ∧
    ((a - RECORD_BASE) % RECORD_SIZE = 49 → fullBuf a = 48) ∧
    ((a - RECORD_BASE) % RECORD_SIZE = 63 → fullBuf a = 10) := by
  unfold fullBuf
  simp only [RECORD_BASE, METADATA_SIZE, BLOCK_SIZE, RECORD_SIZE] at *
  refine ⟨?_, ?_, ?_⟩ <;> intro hk <;> split_ifs <;> omega

theorem matchesAt_fullBuf_A (o : Nat) : matchesAt fullBuf (lookupPat [65]) o = false := by
  apply matchesAt_eq_false (j := 0)
  · rw [lookupPat_length]; omega
  · have hp : (lookupPat [65]).getD 0 0 = 65 := by decide
    rw [Nat.add_zero, hp]
    exact fullBuf_ne_65 o

theorem matchesAt_fullBuf_blank (o : Nat) (h : RECORD_BASE ≤ o) :
    matchesAt fullBuf (lookupPat []) o = false := by
  by_cases h0 : (o - RECORD_BASE) % RECORD_SIZE = 0
  · apply matchesAt_eq_false (j := 0)
    · rw [lookupPat_length]; omega
    · rw [lookupPat_nil, getD_replicate_zero, Nat.add_zero]
      have h66 := (fullBuf_spec o h).1 h0
      omega
  · by_cases h49 : (o - RECORD_BASE) % RECORD_SIZE ≤ 49
    · apply matchesAt_eq_false (j := 49 - (o - RECORD_BASE) % RECORD_SIZE)
      · rw [lookupPat_length]
        simp only [RECORD_BASE, METADATA_SIZE, BLOCK_SIZE, RECORD_SIZE] at *
        omega
      · rw [lookupPat_nil, getD_replicate_zero]
        have hmod : (o + (49 - (o - RECORD_BASE) % RECORD_SIZE) - RECORD_BASE)
            % RECORD_SIZE = 49 := by
          simp only [RECORD_BASE, METADATA_SIZE, BLOCK_SIZE, RECORD_SIZE] at *
          omega
        have h48 := (fullBuf_spec (o + (49 - (o - RECORD_BASE) % RECORD_SIZE))
          (by omega)).2.1 hmod
        omega
    · have hlt : (o - RECORD_BASE) % RECORD_SIZE < 64 := by
        simp only [RECORD_SIZE]
        omega
      apply matchesAt_eq_false (j := 63 - (o - RECORD_BASE) % RECORD_SIZE)
      · rw [lookupPat_length]
        omega
      · rw [lookupPat_nil, getD_replicate_zero]
        have hmod : (o + (63 - (o - RECORD_BASE) % RECORD_SIZE) - RECORD_BASE)
            % RECORD_SIZE = 63 := by
          simp only [RECORD_BASE, METADATA_SIZE, BLOCK_SIZE, RECORD_SIZE] at *
          omega
        have h10 := (fullBuf_spec (o + (63 - (o - RECORD_BASE) % RECORD_SIZE))
          (by omega)).2.2 hmod
        omega

theorem findRecord_fullBuf_A : findRecord fullBuf [65] = none := by
  have hnone : findFrom fullBuf (lookupPat [65]) RECORD_BASE
      (INDEX_SIZE - (lookupPat [65]).length + 1 - RECORD_BASE) = none :=
    findFrom_eq_none _ _ (fun k _ => matchesAt_fullBuf_A (RECORD_BASE + k))
  unfold findRecord
  rw [hnone]
  rfl

theorem findRecord_fullBuf_blank : findRecord fullBuf [] = none := by
  have hnone : findFrom fullBuf (lookupPat []) RECORD_BASE
      (INDEX_SIZE - (lookupPat []).length + 1 - RECORD_BASE) = none :=
    findFrom_eq_none _ _
      (fun k _ => matchesAt_fullBuf_blank (RECORD_BASE + k) (by omega))
  unfold findRecord
  rw [hnone]
  rfl

/-! ### Format lemmas -/

theorem formatAux_untouched (l : List Nat) (init : Nat → Nat) (a : Nat)
    (h : ∀ j ∈ l, a < recordOffset j ∨ recordOffset j + 64 ≤ a) :
    l.foldl formatStep init a = init a := by
  induction l generalizing init with
  | nil => rfl
  | cons j t ih =>
    rw [List.foldl_cons, ih]
    · apply writeBytes_apply_outside
      have := h j (by simp)
      rw [Record.bytes_length]
      omega
    · intro j' hj'
      exact h j' (by simp [hj'])

theorem formatAux_written (l : List Nat) (hnd : l.Nodup) (i : Nat) (hi : i ∈ l)
    (init : Nat → Nat) (a : Nat)
    (ha : recordOffset i ≤ a ∧ a < recordOffset i + 64) :
    l.foldl formatStep init a =
      (Record.bytes ⟨[], leaseOffset i, false⟩).getD (a - recordOffset i) 0 := by
  induction l generalizing init with
  | nil => simp at hi
  | cons j t ih =>
    rw [List.foldl_cons]
    by_cases hij : i = j
    · subst hij
      have hnott : i ∉ t := (List.nodup_cons.mp hnd).1
      rw [formatAux_untouched]
      · apply writeBytes_apply_inside
        rw [Record.bytes_length]
        omega
      · intro j' hj'
        have hne : j' ≠ i := fun hh => hnott (hh ▸ hj')
        simp only [recordOffset, RECORD_BASE, METADATA_SIZE, BLOCK_SIZE, RECORD_SIZE] at *
        omega
    · have hit : i ∈ t := by
        rcases List.mem_cons.mp hi with hh | hh
        · exact absurd hh hij
        · exact hh
      exact ih (List.nodup_cons.mp hnd).2 hit _

/-! ### Claim theorems -/

/-- Claim C1 (status: code bug).  `find_record` is claimed to return a
record number only for matches whose byte offset is aligned to
`RECORD_SIZE` from `RECORD_BASE`, rejecting mis-aligned textual hits.  The
source has no such check (`TODO: continue search if offset is not aligned
to record size`): in `misBuf` the lookup pattern for lease id `"A"` occurs
only at the mis-aligned offset 513 — no record-aligned offset even starts
with the pattern — yet `find_record` returns record number
`(513 - RECORD_BASE) // RECORD_SIZE = 0`. -/
theorem find_record_accepts_misaligned_match :
    matchesAt misBuf (lookupPat [65]) 513 = true ∧
    (513 - RECORD_BASE) % RECORD_SIZE ≠ 0 ∧
    (∀ k, k < MAX_RECORDS →
      matchesAt misBuf (lookupPat [65]) (RECORD_BASE + k * RECORD_SIZE) = false) ∧
    findRecord misBuf [65] = some 0 := by
  refine ⟨by decide, by decide, ?_, by decide⟩
  intro k hk
  apply matchesAt_eq_false (j := 0)
  · rw [lookupPat_length]
    omega
  · have hp : (lookupPat [65]).getD 0 0 = 65 := by decide
    rw [Nat.add_zero, hp]
    simp only [misBuf, RECORD_BASE, METADATA_SIZE, BLOCK_SIZE, RECORD_SIZE]
    split_ifs with hx hy <;> omega

/-- Claim C3 counterexample.  `Record.bytes` is claimed to fail with
`InvalidRecord("resource too long")` for a resource longer than 48 bytes.
It does not: the `"48s"` struct field silently truncates, so a 49-byte
resource still produces a 64-byte record whose resource field is the first
48 bytes. -/
theorem record_bytes_truncates_at_49 :
    (Record.bytes ⟨List.replicate 49 97, 0, false⟩).length = 64 ∧
    (Record.bytes ⟨List.replicate 49 97, 0, false⟩).take 48 = List.replicate 48 97 := by
  exact ⟨by decide, by decide⟩

/-- Claim C3 as amended: for an ASCII resource longer than 48 bytes,
`Record.bytes` raises nothing and silently truncates — it returns a
64-byte record whose resource field holds the first 48 resource bytes. -/
theorem record_bytes_silently_truncates (res : List Nat) (off : Nat) (upd : Bool)
    (_hascii : ∀ b ∈ res, b < 128) (hlong : 48 < res.length) :
    (Record.bytes ⟨res, off, upd⟩).length = 64 ∧
    (Record.bytes ⟨res, off, upd⟩).take 48 = res.take 48 := by
  constructor
  · exact Record.bytes_length _
  · rw [Record.bytes_take48]
    show padTrunc 48 res = res.take 48
    rw [padTrunc, List.take_append_eq_append_take, List.take_replicate]
    have h0 : 48 - res.length = 0 := by omega
    rw [h0]
    simp

theorem record_bytes_silently_truncates_witness :
    (∀ b ∈ List.replicate 49 97, b < 128) ∧ 48 < (List.replicate 49 97).length ∧
    ((Record.bytes ⟨List.replicate 49 97, 3145728, true⟩).length = 64 ∧
      (Record.bytes ⟨List.replicate 49 97, 3145728, true⟩).take 48 =
        (List.replicate 49 97).take 48) :=
  ⟨by decide, by decide,
    record_bytes_silently_truncates (List.replicate 49 97) 3145728 true
      (by decide) (by decide)⟩

/-- Claim C4 (status: confirmed).  Round trip of the record codec: for an
ASCII resource of at most 48 bytes that does not end in a NUL byte and a
non-negative offset of at most 11 decimal digits,
`Record.frombytes(Record(resource, offset, updating).bytes())` returns the
same resource, offset and updating flag. -/
theorem record_codec_roundtrip (res : List Nat) (off : Nat) (upd : Bool)
    (h1 : res.length ≤ 48) (h2 : ∀ b ∈ res, b < 128)
    (h3 : res.getLast? ≠ some 0) (h4 : off < 100000000000) :
    Record.frombytes (Record.bytes ⟨res, off, upd⟩) = .ok ⟨res, off, upd⟩ := by
  apply frombytes_bytes ⟨res, off, upd⟩ h1 h2 h3
  show off < 10 ^ 11
  have h11 : (10:Nat) ^ 11 = 100000000000 := by norm_num
  omega

theorem record_codec_roundtrip_witness :
    ([97] : List Nat).length ≤ 48 ∧ (∀ b ∈ ([97] : List Nat), b < 128) ∧
    ([97] : List Nat).getLast? ≠ some 0 ∧ (3145728 : Nat) < 100000000000 ∧
    Record.frombytes (Record.bytes ⟨[97], 3145728, true⟩) = .ok ⟨[97], 3145728, true⟩ :=
  ⟨by decide, by decide, by decide, by decide,
    record_codec_roundtrip [97] 3145728 true (by decide) (by decide) (by decide)
      (by decide)⟩

/-- Claim C5 (status: confirmed).  Error classification of `add`: when a
record for the lease id exists and is updating, `add` raises
`LeaseUpdating`; when it exists and is not updating, `LeaseExists`; when no
record exists and no free record (empty resource) is found, `NoSpace`.  In
each error case the state is returned unchanged — no record is written. -/
theorem add_error_classification (v : LeasesVolume) (leaseId : List Nat) :
    (∀ n r, findRecord v.index leaseId = some n → readRecord v.index n = .ok r →
      r.updating = true → add v leaseId = (v, .error (.leaseUpdating leaseId))) ∧
    (∀ n r, findRecord v.index leaseId = some n → readRecord v.index n = .ok r →
      r.updating = false → add v leaseId = (v, .error (.leaseExists leaseId))) ∧
    (findRecord v.index leaseId = none → findRecord v.index [] = none →
      add v leaseId = (v, .error (.noSpace leaseId))) := by
  refine ⟨?_, ?_, ?_⟩
  · intro n r hf hr hu
    unfold add
    split
    · rename_i recnum heq
      rw [hf] at heq
      obtain rfl : n = recnum := Option.some.inj heq
      split
      · rename_i e heq2
        rw [hr] at heq2
        cases heq2
      · rename_i record heq2
        rw [hr] at heq2
        obtain rfl : r = record := Except.ok.inj heq2
        rw [hu]
        simp
    · rename_i heq
      rw [hf] at heq
      cases heq
  · intro n r hf hr hu
    unfold add
    split
    · rename_i recnum heq
      rw [hf] at heq
      obtain rfl : n = recnum := Option.some.inj heq
      split
      · rename_i e heq2
        rw [hr] at heq2
        cases heq2
      · rename_i record heq2
        rw [hr] at heq2
        obtain rfl : r = record := Except.ok.inj heq2
        rw [hu]
        simp
    · rename_i heq
      rw [hf] at heq
      cases heq
  · intro hf hb
    unfold add
    split
    · rename_i recnum heq
      rw [hf] at heq
      cases heq
    · split
      · rfl
      · rename_i recnum heq2
        rw [hb] at heq2
        cases heq2

theorem add_error_classification_witness :
    findRecord updVol.index [65] = some 0 ∧
    readRecord updVol.index 0 = .ok ⟨[65], 3145728, true⟩ ∧
    add updVol [65] = (updVol, .error (.leaseUpdating [65])) ∧
    findRecord okVol.index [65] = some 0 ∧
    readRecord okVol.index 0 = .ok ⟨[65], 3145728, false⟩ ∧
    add okVol [65] = (okVol, .error (.leaseExists [65])) ∧
    findRecord fullVol.index [65] = none ∧
    findRecord fullVol.index [] = none ∧
    add fullVol [65] = (fullVol, .error (.noSpace [65])) :=
  ⟨by decide, by decide,
    (add_error_classification updVol [65]).1 0 ⟨[65], 3145728, true⟩
      (by decide) (by decide) rfl,
    by decide, by decide,
    (add_error_classification okVol [65]).2.1 0 ⟨[65], 3145728, false⟩
      (by decide) (by decide) rfl,
    findRecord_fullBuf_A, findRecord_fullBuf_blank,
    (add_error_classification fullVol [65]).2.2 findRecord_fullBuf_A
      findRecord_fullBuf_blank⟩

/-- Claim C6 (status: confirmed).  `lookup` raises `NoSuchLease` when no
record is found, `LeaseUpdating` when the found record is updating, and
otherwise returns `LeaseInfo(lockspace, lease_id, path,
USER_RESOURCE_BASE + n * SLOT_SIZE)` for the record number `n` that
`find_record` returned; in every case the state is unchanged — `lookup`
never writes to the index or to storage. -/
theorem lookup_spec (v : LeasesVolume) (leaseId : List Nat) :
    (findRecord v.index leaseId = none →
      lookup v leaseId = (v, .error (.noSuchLease leaseId))) ∧
    (∀ n r, findRecord v.index leaseId = some n → readRecord v.index n = .ok r →
      r.updating = true → lookup v leaseId = (v, .error (.leaseUpdating leaseId))) ∧
    (∀ n r, findRecord v.index leaseId = some n → readRecord v.index n = .ok r →
      r.updating = false → lookup v leaseId =
        (v, .ok ⟨v.lockspace, leaseId, v.path, USER_RESOURCE_BASE + n * SLOT_SIZE⟩)) ∧
    (lookup v leaseId).1 = v := by
  refine ⟨?_, ?_, ?_, ?_⟩
  · intro hf
    unfold lookup
    rw [hf]
  · intro n r hf hr hu
    unfold lookup
    split
    · rename_i heq
      rw [hf] at heq
      cases heq
    · rename_i recnum heq
      rw [hf] at heq
      obtain rfl : n = recnum := Option.some.inj heq
      split
      · rename_i e heq2
        rw [hr] at heq2
        cases heq2
      · rename_i record heq2
        rw [hr] at heq2
        obtain rfl : r = record := Except.ok.inj heq2
        rw [hu]
        simp
  · intro n r hf hr hu
    unfold lookup
    split
    · rename_i heq
      rw [hf] at heq
      cases heq
    · rename_i recnum heq
      rw [hf] at heq
      obtain rfl : n = recnum := Option.some.inj heq
      split
      · rename_i e heq2
        rw [hr] at heq2
        cases heq2
      · rename_i record heq2
        rw [hr] at heq2
        obtain rfl : r = record := Except.ok.inj heq2
        rw [hu]
        simp [leaseOffset]
  · unfold lookup
    split
    · rfl
    · split
      · rfl
      · split <;> rfl

theorem lookup_spec_witness :
    findRecord fullVol.index [65] = none ∧
    lookup fullVol [65] = (fullVol, .error (.noSuchLease [65])) ∧
    lookup updVol [65] = (updVol, .error (.leaseUpdating [65])) ∧
    lookup okVol [65] =
      (okVol, .ok ⟨[76, 83], [65], [112], USER_RESOURCE_BASE + 0 * SLOT_SIZE⟩) ∧
    (lookup okVol [65]).1 = okVol :=
  ⟨findRecord_fullBuf_A,
    (lookup_spec fullVol [65]).1 findRecord_fullBuf_A,
    (lookup_spec updVol [65]).2.1 0 ⟨[65], 3145728, true⟩ (by decide) (by decide) rfl,
    (lookup_spec okVol [65]).2.2.1 0 ⟨[65], 3145728, false⟩ (by decide) (by decide) rfl,
    (lookup_spec okVol [65]).2.2.2⟩

/-- Claim C7 (status: confirmed).  After `format_index`, every record
number `i < MAX_RECORDS` reads back as a free record: empty resource,
offset `USER_RESOURCE_BASE + i * SLOT_SIZE`, updating flag clear — in
particular record `MAX_RECORDS - 1`. -/
theorem format_index_reads_free (stored : Nat → Nat) (i : Nat) (hi : i < MAX_RECORDS) :
    readRecord (formatIndex stored) i =
      .ok ⟨[], USER_RESOURCE_BASE + i * SLOT_SIZE, false⟩ := by
  have hlen64 : (Record.bytes ⟨[], leaseOffset i, false⟩).length = 64 :=
    Record.bytes_length _
  have hbytes : readBytes (formatIndex stored) (recordOffset i) RECORD_SIZE =
      Record.bytes ⟨[], leaseOffset i, false⟩ := by
    unfold readBytes
    rw [show RECORD_SIZE = 64 from rfl]
    calc (List.range 64).map (fun k => formatIndex stored (recordOffset i + k))
        = (List.range 64).map
            (fun k => (Record.bytes ⟨[], leaseOffset i, false⟩).getD k 0) := by
          apply List.map_congr_left
          intro k hk
          simp only [List.mem_range] at hk
          rw [formatIndex, formatAux_written (List.range MAX_RECORDS)
            (List.nodup_range _) i (List.mem_range.mpr hi) stored _ ⟨by omega, by omega⟩]
          congr 1
          omega
      _ = Record.bytes ⟨[], leaseOffset i, false⟩ := by
          conv_lhs => rw [← hlen64]
          exact range_map_getD _
  unfold readRecord
  rw [hbytes]
  have hoffsmall : leaseOffset i < 10 ^ 11 := by
    have h11 : (10:Nat) ^ 11 = 100000000000 := by norm_num
    rw [h11]
    simp only [MAX_RECORDS] at hi
    simp only [leaseOffset, USER_RESOURCE_BASE, SLOT_SIZE, BLOCK_SIZE]
    omega
  have hrt := frombytes_bytes ⟨[], leaseOffset i, false⟩ (by simp) (by simp)
    (by simp) hoffsmall
  simpa [leaseOffset] using hrt

theorem format_index_reads_free_witness :
    (3999 : Nat) < MAX_RECORDS ∧
    readRecord (formatIndex zeroBuf) 3999 =
      .ok ⟨[], USER_RESOURCE_BASE + 3999 * SLOT_SIZE, false⟩ :=
  ⟨by decide, format_index_reads_free zeroBuf 3999 (by decide)⟩

/-- Claim C8 (status: confirmed).  After `_write_record(i, r)` with a valid
record, record `i` reads back as `r` both from the in-memory index and from
the storage bytes; every other record is byte-for-byte unchanged in the
index, and on storage too when index and storage were in sync (the class
invariant); the only storage bytes written are those of the single
`BLOCK_SIZE` block containing record `i`. -/
theorem write_record_frame (v : LeasesVolume) (i : Nat) (r : Record)
    (hsync : ∀ a, v.storage a = v.index a)
    (h1 : r.resource.length ≤ 48) (h2 : ∀ b ∈ r.resource, b < 128)
    (h3 : r.resource.getLast? ≠ some 0) (h4 : r.offset < 100000000000) :
    readRecord (writeRec v i r).index i = .ok r ∧
    readRecord (writeRec v i r).storage i = .ok r ∧
    (∀ j, j ≠ i →
      readBytes (writeRec v i r).index (recordOffset j) RECORD_SIZE =
        readBytes v.index (recordOffset j) RECORD_SIZE ∧
      readBytes (writeRec v i r).storage (recordOffset j) RECORD_SIZE =
        readBytes v.storage (recordOffset j) RECORD_SIZE) ∧
    (∀ a, a < blockStart i ∨ blockStart i + BLOCK_SIZE ≤ a →
      (writeRec v i r).storage a = v.storage a) := by
  have h10 : r.offset < 10 ^ 11 := by
    have h11 : (10:Nat) ^ 11 = 100000000000 := by norm_num
    omega
  have hrt : Record.frombytes r.bytes = .ok r := frombytes_bytes r h1 h2 h3 h10
  have hlen : r.bytes.length = 64 := Record.bytes_length r
  have hblock := record_region_subset_block i
  have hread : readBytes (writeRec v i r).index (recordOffset i) RECORD_SIZE =
      r.bytes := by
    show readBytes (writeBytes v.index (recordOffset i) r.bytes)
      (recordOffset i) RECORD_SIZE = r.bytes
    rw [show RECORD_SIZE = 64 from rfl, ← hlen]
    exact readBytes_writeBytes
  have hdis : ∀ j, j ≠ i → ∀ a, recordOffset j ≤ a → a < recordOffset j + RECORD_SIZE →
      a < recordOffset i ∨ recordOffset i + r.bytes.length ≤ a := by
    intro j hj a ha1 ha2
    rw [hlen]
    simp only [recordOffset, RECORD_BASE, METADATA_SIZE, BLOCK_SIZE, RECORD_SIZE] at *
    rcases Nat.lt_or_ge j i with hh | hh
    · left; omega
    · right
      have : j = i ∨ i + 1 ≤ j := by omega
      rcases this with h | h
      · exact absurd h hj
      · omega
  refine ⟨?_, ?_, ?_, ?_⟩
  · unfold readRecord
    rw [hread, hrt]
  · unfold readRecord
    have hcongr : readBytes (writeRec v i r).storage (recordOffset i) RECORD_SIZE =
        readBytes (writeRec v i r).index (recordOffset i) RECORD_SIZE := by
      apply readBytes_congr
      intro a ha1 ha2
      show (if blockStart i ≤ a ∧ a < blockStart i + BLOCK_SIZE then
          writeBytes v.index (recordOffset i) r.bytes a
        else v.storage a) = writeBytes v.index (recordOffset i) r.bytes a
      rw [if_pos (by omega)]
    rw [hcongr, hread, hrt]
  · intro j hj
    constructor
    · apply readBytes_congr
      intro a ha1 ha2
      exact writeBytes_apply_outside (hdis j hj a ha1 ha2)
    · apply readBytes_congr
      intro a ha1 ha2
      show (if blockStart i ≤ a ∧ a < blockStart i + BLOCK_SIZE then
          writeBytes v.index (recordOffset i) r.bytes a
        else v.storage a) = v.storage a
      by_cases hin : blockStart i ≤ a ∧ a < blockStart i + BLOCK_SIZE
      · rw [if_pos hin, writeBytes_apply_outside (hdis j hj a ha1 ha2), hsync a]
      · rw [if_neg hin]
  · intro a ha
    show (if blockStart i ≤ a ∧ a < blockStart i + BLOCK_SIZE then
        writeBytes v.index (recordOffset i) r.bytes a
      else v.storage a) = v.storage a
    rw [if_neg (by omega)]

theorem write_record_frame_witness :
    (∀ a, zeroVol.storage a = zeroVol.index a) ∧
    ([65] : List Nat).length ≤ 48 ∧ (∀ b ∈ ([65] : List Nat), b < 128) ∧
    ([65] : List Nat).getLast? ≠ some 0 ∧ (3145728 : Nat) < 100000000000 ∧
    (readRecord (writeRec zeroVol 0 ⟨[65], 3145728, false⟩).index 0 =
        .ok ⟨[65], 3145728, false⟩ ∧
      readRecord (writeRec zeroVol 0 ⟨[65], 3145728, false⟩).storage 0 =
        .ok ⟨[65], 3145728, false⟩ ∧
      (∀ j, j ≠ 0 →
        readBytes (writeRec zeroVol 0 ⟨[65], 3145728, false⟩).index
            (recordOffset j) RECORD_SIZE =
          readBytes zeroVol.index (recordOffset j) RECORD_SIZE ∧
        readBytes (writeRec zeroVol 0 ⟨[65], 3145728, false⟩).storage
            (recordOffset j) RECORD_SIZE =
          readBytes zeroVol.storage (recordOffset j) RECORD_SIZE) ∧
      (∀ a, a < blockStart 0 ∨ blockStart 0 + BLOCK_SIZE ≤ a →
        (writeRec zeroVol 0 ⟨[65], 3145728, false⟩).storage a = zeroVol.storage a)) :=
  ⟨fun _ => rfl, by decide, by decide, by decide, by decide,
    write_record_frame zeroVol 0 ⟨[65], 3145728, false⟩ (fun _ => rfl)
      (by decide) (by decide) (by decide) (by decide)⟩

/-- Claim C10 (status: confirmed).  `remove` never reads the found record,
so — unlike `lookup` and `add` — it does not raise `LeaseUpdating` on a
record whose updating flag is set: it proceeds through its three phases and
leaves the record free (empty resource, updating flag clear). -/
theorem remove_proceeds_on_updating (v : LeasesVolume) (leaseId : List Nat)
    (n : Nat) (r : Record) (hf : findRecord v.index leaseId = some n)
    (_hr : readRecord v.index n = .ok r) (_hu : r.updating = true) :
    (remove v leaseId).2 = .ok () ∧
    readRecord (remove v leaseId).1.index n = .ok ⟨[], leaseOffset n, false⟩ := by
  have hn : n < MAX_RECORDS := findRecord_lt hf
  have hoffsmall : leaseOffset n < 10 ^ 11 := by
    have h11 : (10:Nat) ^ 11 = 100000000000 := by norm_num
    rw [h11]
    simp only [MAX_RECORDS] at hn
    simp only [leaseOffset, USER_RESOURCE_BASE, SLOT_SIZE, BLOCK_SIZE]
    omega
  have hremove : remove v leaseId =
      (writeRec (writeRec v n ⟨leaseId, leaseOffset n, true⟩) n
        ⟨[], leaseOffset n, false⟩, .ok ()) := by
    unfold remove
    rw [hf]
  have hlen : (Record.bytes ⟨[], leaseOffset n, false⟩).length = 64 :=
    Record.bytes_length _
  refine ⟨by rw [hremove], ?_⟩
  rw [hremove]
  unfold readRecord
  have hbytes : readBytes (writeRec (writeRec v n ⟨leaseId, leaseOffset n, true⟩) n
      ⟨[], leaseOffset n, false⟩).index (recordOffset n) RECORD_SIZE =
      Record.bytes ⟨[], leaseOffset n, false⟩ := by
    show readBytes (writeBytes _ (recordOffset n) (Record.bytes ⟨[], leaseOffset n, false⟩))
      (recordOffset n) RECORD_SIZE = Record.bytes ⟨[], leaseOffset n, false⟩
    rw [show RECORD_SIZE = 64 from rfl, ← hlen]
    exact readBytes_writeBytes
  rw [hbytes]
  exact frombytes_bytes ⟨[], leaseOffset n, false⟩ (by simp) (by simp) (by simp) hoffsmall

theorem remove_proceeds_on_updating_witness :
    findRecord updVol.index [65] = some 0 ∧
    readRecord updVol.index 0 = .ok ⟨[65], 3145728, true⟩ ∧
    (remove updVol [65]).2 = .ok () ∧
    readRecord (remove updVol [65]).1.index 0 = .ok ⟨[], leaseOffset 0, false⟩ :=
  ⟨by decide, by decide,
    (remove_proceeds_on_updating updVol [65] 0 ⟨[65], 3145728, true⟩
      (by decide) (by decide) rfl).1,
    (remove_proceeds_on_updating updVol [65] 0 ⟨[65], 3145728, true⟩
      (by decide) (by decide) rfl).2⟩

end Xlease

namespace Mvdb

/-- Claim C2 (status: code bug).  `remove_volume` is claimed to delete the
`multipath_id` key from the `multipaths` sub-database.  The source passes
`db=volumes` for that delete, so on a database holding volume `"v1"` with
`multipath_id = "mp1"` and the reverse-index entry `multipaths["mp1"] =
"v1"`, removing `"v1"` succeeds and deletes the volume record but leaves
the `multipaths` entry in place. -/
theorem remove_volume_keeps_multipaths_entry :
    (removeVolume mpState [118, 49]).2 = none ∧
    (removeVolume mpState [118, 49]).1.volumes [118, 49] = none ∧
    (removeVolume mpState [118, 49]).1.multipaths [109, 112, 49] = some [118, 49] := by
  exact ⟨by decide, by decide, by decide⟩

/-- Claim C9 (status: confirmed).  `add_volume` raises
`VolumeAlreadyExists(id, existing)` when the key is present, leaving the
database unchanged; when absent it stores exactly
`{"connection_info": ci}`, so a subsequent `get_volume(id)` returns it,
while `get_volume` of an absent id raises `NotFound(id)`. -/
theorem add_volume_spec (st : DBState) (volId connInfo : List Nat) :
    (∀ info, st.volumes volId = some info →
      addVolume st volId connInfo = (st, some (.alreadyExists volId info))) ∧
    (st.volumes volId = none →
      (addVolume st volId connInfo).2 = none ∧
      getVolume (addVolume st volId connInfo).1 volId =
        .ok ⟨connInfo, none, none, none⟩) ∧
    (st.volumes volId = none → getVolume st volId = .error (.notFound volId)) := by
  refine ⟨?_, ?_, ?_⟩
  · intro info h
    unfold addVolume
    rw [h]
  · intro h
    constructor
    · unfold addVolume
      rw [h]
    · unfold addVolume getVolume
      rw [h]
      simp
  · intro h
    unfold getVolume
    rw [h]

theorem add_volume_spec_witness :
    oneState.volumes [118, 49] = some ⟨[99], none, none, none⟩ ∧
    addVolume oneState [118, 49] [97] =
      (oneState, some (.alreadyExists [118, 49] ⟨[99], none, none, none⟩)) ∧
    emptyState.volumes [118, 49] = none ∧
    ((addVolume emptyState [118, 49] [99]).2 = none ∧
      getVolume (addVolume emptyState [118, 49] [99]).1 [118, 49] =
        .ok ⟨[99], none, none, none⟩) ∧
    getVolume emptyState [118, 49] = .error (.notFound [118, 49]) :=
  ⟨by decide,
    (add_volume_spec oneState [118, 49] [97]).1 ⟨[99], none, none, none⟩ (by decide),
    by decide,
    (add_volume_spec emptyState [118, 49] [99]).2.1 (by decide),
    (add_volume_spec emptyState [118, 49] [99]).2.2 (by decide)⟩

end Mvdb
